import Mathlib

/-!
Shallow embedding of `src/planner.ts` (robot-picker warehouse planner).

Modelling conventions:
* JS numbers used as grid coordinates are modelled as `Int` (the code computes
  `x - 1`, which can be negative); costs and scores are `Nat`.
* JS `Infinity` appears only as a cost, so costs that may be infinite are
  modelled as `Option Nat` with `none` standing for `Infinity`.
* JS `Map`s and `Record`s are modelled as association lists with
  first-match lookup and replace-first-or-append update, which matches the
  insertion-order semantics of `Map.set` / object assignment.
* `findAPath`'s internal maps are keyed by `pointToString`, which is injective
  on points (integer `toString` never contains a comma), so they are modelled
  as maps keyed by the points themselves.
* The JS `PriorityQueue` pushes and then re-sorts with a stable sort
  (`Array.prototype.sort`); on an always-sorted list this is exactly stable
  insertion after all entries of smaller-or-equal priority.
* The `while` loops are modelled with an explicit fuel parameter; a return
  value of `none` (at the outermost `Option` layer) means the fuel ran out,
  i.e. the modelled execution did not terminate within the given budget.
  `if (x)` tests on JS strings are truthiness tests: both `null` and the
  empty string are falsy.
-/

namespace RobotPicker

structure Point where
  x : Int
  y : Int
deriving DecidableEq, Repr

def manhattanDistance (a b : Point) : Nat :=
  (a.x - b.x).natAbs + (a.y - b.y).natAbs

/-- A cost that can be the JS `Infinity` (`none`). -/
abbrev Cost := Option Nat

def costLe : Cost → Cost → Bool
  | _, none => true
  | none, some _ => false
  | some a, some b => a ≤ b

def natLtCost (a : Nat) : Cost → Bool
  | none => true
  | some b => a < b

def addNatCost (a : Nat) : Cost → Cost
  | none => none
  | some b => some (a + b)

/-- JS `gScore.get(k) || 0`: a missing key yields 0 (and `0 || 0` is 0 too). -/
def jsOrZero : Option Nat → Nat
  | none => 0
  | some v => v

/-- JS `gScore.get(k) || Infinity`: both a missing key and a recorded value
of `0` are falsy, so a recorded `0` behaves like a missing entry. -/
def jsOrInf : Option Nat → Cost
  | none => none
  | some 0 => none
  | some v => some v

def alookup {α β : Type} [DecidableEq α] : List (α × β) → α → Option β
  | [], _ => none
  | (k, v) :: rest, key => if k = key then some v else alookup rest key

def aset {α β : Type} [DecidableEq α] : List (α × β) → α → β → List (α × β)
  | [], key, val => [(key, val)]
  | (k, v) :: rest, key, val =>
    if k = key then (k, val) :: rest else (k, v) :: aset rest key val

structure PQEntry (τ : Type) where
  item : τ
  priority : Cost
deriving DecidableEq, Repr

/-- The JS `PriorityQueue.enqueue`: push, then stable sort by priority.  On a
list that is already sorted (which the queue always is) this inserts the new
entry after every entry of smaller-or-equal priority. -/
def pqEnqueue {τ : Type} : List (PQEntry τ) → PQEntry τ → List (PQEntry τ)
  | [], e => [e]
  | x :: xs, e => if costLe x.priority e.priority then x :: pqEnqueue xs e else e :: x :: xs

/-! ### Grid pathfinding (`findPath`, planner.ts lines 51-94) -/

def neighborsOf (p : Point) : List Point :=
  [⟨p.x + 1, p.y⟩, ⟨p.x - 1, p.y⟩, ⟨p.x, p.y + 1⟩, ⟨p.x, p.y - 1⟩]

/-- The neighbor filter of line 80-82: inside the grid and not an obstacle. -/
def validCell (p : Point) (obstacles : List Point) (gridSize : Nat) : Bool :=
  decide (0 ≤ p.x ∧ p.x < (gridSize : Int) ∧ 0 ≤ p.y ∧ p.y < (gridSize : Int) ∧ p ∉ obstacles)

structure FPState where
  openSet : List (PQEntry Point)
  cameFrom : List (Point × Point)
  gScore : List (Point × Nat)

/-- The body of the `for (const neighbor of neighbors)` loop (lines 84-91):
relax one neighbor of the dequeued node `cur`. -/
def fpRelaxNeighbor (endP cur : Point) (σ : FPState) (nbr : Point) : FPState :=
  let tentativeG := jsOrZero (alookup σ.gScore cur) + 1
  if natLtCost tentativeG (jsOrInf (alookup σ.gScore nbr)) then
    { openSet := pqEnqueue σ.openSet ⟨nbr, some (tentativeG + manhattanDistance nbr endP)⟩,
      cameFrom := aset σ.cameFrom nbr cur,
      gScore := aset σ.gScore nbr tentativeG }
  else σ

/-- One neighbor-expansion step of the inner A* loop (lines 77-91), after the
current node has been dequeued. -/
def fpExpand (endP : Point) (obstacles : List Point) (gridSize : Nat)
    (cur : Point) (σ0 : FPState) : FPState :=
  ((neighborsOf cur).filter (fun p => validCell p obstacles gridSize)).foldl
    (fpRelaxNeighbor endP cur) σ0

/-- The path-reconstruction `while (cameFrom.has(currStr))` loop of
lines 67-72.  It is not structurally terminating (the map can contain a
cycle), hence the fuel. -/
def reconstruct : Nat → List (Point × Point) → Point → List Point → Option (List Point)
  | 0, _, _, _ => none
  | fuel + 1, cameFrom, cur, acc =>
    match alookup cameFrom cur with
    | some prev => reconstruct fuel cameFrom prev (cur :: acc)
    | none => some acc

/-- The main `while (!openSet.isEmpty())` loop of `findPath`. -/
def fpLoop (startP endP : Point) (obstacles : List Point) (gridSize : Nat) :
    Nat → FPState → Option (Option (List Point))
  | 0, _ => none
  | fuel + 1, σ =>
    match σ.openSet with
    | [] => some none
    | e :: rest =>
      if e.item = endP then
        match reconstruct (fuel + 1) σ.cameFrom e.item [] with
        | none => none
        | some tailPath => some (some (startP :: tailPath))
      else
        fpLoop startP endP obstacles gridSize fuel
          (fpExpand endP obstacles gridSize e.item { σ with openSet := rest })

/-- `findPath` (planner.ts lines 51-94).  The outer `none` means the fuel ran
out (the modelled run did not terminate); `some none` is the JS `null`
(no path); `some (some p)` is a returned path. -/
def findPath (fuel : Nat) (startP endP : Point) (obstacles : List Point) (gridSize : Nat) :
    Option (Option (List Point)) :=
  fpLoop startP endP obstacles gridSize fuel
    { openSet := [⟨startP, some (manhattanDistance startP endP)⟩],
      cameFrom := [],
      gScore := [(startP, 0)] }

/-! ### World model (planner.ts lines 19-43, 96-171) -/

def tagRobot : String := "robot"
def tagCollection : String := "collectionPoint"
def tagNull : String := "null"

structure WorldState where
  robotPos : Point
  holding : Option String
  itemLocations : List (String × String)
deriving DecidableEq, Repr

inductive Action where
  | move (fromP toP : Point) (path : List Point) (cost : Nat)
  | pick (item shelfId : String) (cost : Nat)
  | drop (item : String) (cost : Nat)
deriving DecidableEq, Repr

def Action.cost : Action → Nat
  | .move _ _ _ c => c
  | .pick _ _ c => c
  | .drop _ c => c

structure Shelf where
  id : String
  items : List String
  pos : Point
deriving DecidableEq, Repr

structure PlannerResult where
  path : List Action
  iterations : Nat
deriving DecidableEq, Repr

/-- JS truthiness of `state.holding : string | null`: `null` and the empty
string are falsy. -/
def strTruthy : Option String → Bool
  | none => false
  | some s => decide (s ≠ "")

/-- Lexicographic byte-order comparison on strings as character lists,
modelling the default `localeCompare` total order. -/
def charsLe : List Char → List Char → Bool
  | [], _ => true
  | _ :: _, [] => false
  | a :: as, b :: bs =>
    if a.toNat < b.toNat then true
    else if b.toNat < a.toNat then false
    else charsLe as bs

def keyLe (a b : String × String) : Prop :=
  charsLe a.1.data b.1.data = true

instance : DecidableRel keyLe := fun a b =>
  inferInstanceAs (Decidable (charsLe a.1.data b.1.data = true))

def holdingStr : Option String → String
  | none => tagNull
  | some s => s

def entryStr (e : String × String) : String := e.1 ++ ":" ++ e.2

def joinComma : List String → String
  | [] => ""
  | [s] => s
  | s :: rest => s ++ "," ++ joinComma rest

/-- `stateToString` (planner.ts lines 98-101): robot position, holding, and
the item locations sorted by item identifier. -/
def stateToString (s : WorldState) : String :=
  toString s.robotPos.x ++ "," ++ toString s.robotPos.y ++ "|" ++ holdingStr s.holding ++ "|" ++
    joinComma ((List.insertionSort keyLe s.itemLocations).map entryStr)

/-- `isGoal` (planner.ts lines 103-105). -/
def isGoal (s : WorldState) (goalItems : List String) : Bool :=
  goalItems.all (fun it => decide (alookup s.itemLocations it = some tagCollection))

/-- The `neededItems` filter of line 109. -/
def neededItems (s : WorldState) (goalItems : List String) : List String :=
  goalItems.filter (fun it =>
    decide (alookup s.itemLocations it ≠ some tagCollection) &&
    decide (alookup s.itemLocations it ≠ some tagRobot))

/-- The hand-full branch of `getSuccessors` (planner.ts lines 111-120). -/
def successorsHolding (fuel : Nat) (s : WorldState) (h : String) (collectionPoint : Point)
    (obstacles : List Point) (gridSize : Nat) : Option (List Action) :=
  match findPath fuel s.robotPos collectionPoint obstacles gridSize with
  | none => none
  | some none => some []
  | some (some path) =>
    if 1 < path.length then
      some [.move s.robotPos collectionPoint path (path.length - 1)]
    else
      some [.drop h 1]

/-- The body of the target-shelf loop of planner.ts lines 133-138: append a
Move to the shelf when a path with more than one point exists. -/
def shelfMoveStep (fuel : Nat) (s : WorldState) (obstacles : List Point) (gridSize : Nat)
    (acc : Option (List Action)) (sh : Shelf) : Option (List Action) :=
  match acc with
  | none => none
  | some acts =>
    match findPath fuel s.robotPos sh.pos obstacles gridSize with
    | none => none
    | some none => some acts
    | some (some path) =>
      if 1 < path.length then
        some (acts ++ [.move s.robotPos sh.pos path (path.length - 1)])
      else some acts

/-- The hand-empty branch of `getSuccessors` (planner.ts lines 121-138). -/
def successorsEmpty (fuel : Nat) (s : WorldState) (goalItems : List String)
    (shelves : List Shelf) (obstacles : List Point) (gridSize : Nat) : Option (List Action) :=
  let needed := neededItems s goalItems
  let pickActs : List Action :=
    match shelves.find? (fun sh => decide (sh.pos = s.robotPos)) with
    | some sh =>
      match sh.items.find? (fun it => decide (it ∈ needed)) with
      | some it => if it = "" then [] else [.pick it sh.id 1]
      | none => []
    | none => []
  let targetShelves := shelves.filter (fun sh => sh.items.any (fun it => decide (it ∈ needed)))
  targetShelves.foldl (shelfMoveStep fuel s obstacles gridSize) (some pickActs)

/-- `getSuccessors` (planner.ts lines 107-141).  `if (state.holding)` is a JS
truthiness test, so a held empty string takes the hand-empty branch. -/
def getSuccessors (fuel : Nat) (s : WorldState) (goalItems : List String)
    (shelves : List Shelf) (collectionPoint : Point) (obstacles : List Point)
    (gridSize : Nat) : Option (List Action) :=
  match s.holding with
  | some h =>
    if h = "" then successorsEmpty fuel s goalItems shelves obstacles gridSize
    else successorsHolding fuel s h collectionPoint obstacles gridSize
  | none => successorsEmpty fuel s goalItems shelves obstacles gridSize

/-- `applyAction` (planner.ts lines 143-159). -/
def applyAction (s : WorldState) (a : Action) : WorldState :=
  match a with
  | .move _ toP _ _ => { s with robotPos := toP }
  | .pick item _ _ =>
    { s with holding := some item, itemLocations := aset s.itemLocations item tagRobot }
  | .drop item _ =>
    { s with holding := none, itemLocations := aset s.itemLocations item tagCollection }

/-- The `itemsToGet` filter of planner.ts line 163: goal items whose
location-tag is not the collection point. -/
def itemsToGet (s : WorldState) (goalItems : List String) : List String :=
  goalItems.filter (fun it => decide (alookup s.itemLocations it ≠ some tagCollection))

/-- `heuristic` (planner.ts lines 161-171). -/
def heuristic (fuel : Nat) (s : WorldState) (goalItems : List String) (collectionPoint : Point)
    (obstacles : List Point) (gridSize : Nat) : Option Cost :=
  let base := (itemsToGet s goalItems).length * 20
  if strTruthy s.holding then
    match findPath fuel s.robotPos collectionPoint obstacles gridSize with
    | none => none
    | some none => some none
    | some (some path) => some (some (base + (path.length - 1)))
  else
    some (some base)

/-! ### The outer planner (`aStarPlanner`, planner.ts lines 174-228) -/

structure PlanEntry where
  state : WorldState
  path : List Action
deriving DecidableEq, Repr

structure PlanState where
  openSet : List (PQEntry PlanEntry)
  gScore : List (String × Nat)
  fScore : List (String × Cost)
  iterations : Nat
deriving DecidableEq, Repr

/-- The per-successor body of the planner loop (planner.ts lines 212-224):
compute the tentative g, and on strict improvement over the
`gScore.get(key) || Infinity` guard record the new g and f and push the
successor onto the frontier. -/
def relax (fuel : Nat) (goalItems : List String) (collectionPoint : Point)
    (obstacles : List Point) (gridSize : Nat)
    (currentState : WorldState) (currentKey : String) (currentPath : List Action)
    (acc : Option (List (String × Nat) × List (String × Cost) × List (PQEntry PlanEntry)))
    (a : Action) :
    Option (List (String × Nat) × List (String × Cost) × List (PQEntry PlanEntry)) :=
  match acc with
  | none => none
  | some (gs, fs, q) =>
    let nextState := applyAction currentState a
    let nextKey := stateToString nextState
    let tentativeG := jsOrZero (alookup gs currentKey) + a.cost
    if natLtCost tentativeG (jsOrInf (alookup gs nextKey)) then
      match heuristic fuel nextState goalItems collectionPoint obstacles gridSize with
      | none => none
      | some h =>
        let f := addNatCost tentativeG h
        some (aset gs nextKey tentativeG, aset fs nextKey f,
          pqEnqueue q ⟨⟨nextState, currentPath ++ [a]⟩, f⟩)
    else
      some (gs, fs, q)

inductive PlanStep where
  | done (result : Option PlannerResult)
  | next (σ : PlanState)
  | stuck
deriving DecidableEq, Repr

/-- One iteration of the planner's main `while` loop (planner.ts
lines 196-225): bump the iteration counter, time out past 5000, pop the
lowest-f entry, test the goal, otherwise relax every successor. -/
def plannerStep (fuel : Nat) (goalItems : List String) (shelves : List Shelf)
    (collectionPoint : Point) (obstacles : List Point) (gridSize : Nat)
    (σ : PlanState) : PlanStep :=
  match σ.openSet with
  | [] => .done none
  | e :: rest =>
    let iters := σ.iterations + 1
    if 5000 < iters then .done none
    else
      let currentState := e.item.state
      let currentPath := e.item.path
      let currentKey := stateToString currentState
      if isGoal currentState goalItems then .done (some ⟨currentPath, iters⟩)
      else
        match getSuccessors fuel currentState goalItems shelves collectionPoint obstacles gridSize with
        | none => .stuck
        | some actions =>
          match actions.foldl
              (relax fuel goalItems collectionPoint obstacles gridSize
                currentState currentKey currentPath)
              (some (σ.gScore, σ.fScore, rest)) with
          | none => .stuck
          | some (gs, fs, q) => .next ⟨q, gs, fs, iters⟩

def plannerLoop (fuel : Nat) (goalItems : List String) (shelves : List Shelf)
    (collectionPoint : Point) (obstacles : List Point) (gridSize : Nat) :
    Nat → PlanState → Option (Option PlannerResult)
  | 0, _ => none
  | n + 1, σ =>
    match plannerStep fuel goalItems shelves collectionPoint obstacles gridSize σ with
    | .done r => some r
    | .stuck => none
    | .next σ2 => plannerLoop fuel goalItems shelves collectionPoint obstacles gridSize n σ2

/-- `aStarPlanner` (planner.ts lines 174-228).  The outer `none` means the
modelled run did not terminate within the fuel; `some none` is the JS `null`
(returned both on timeout, line 200, and on frontier exhaustion, line 227);
`some (some r)` is a successful plan. -/
def aStarPlanner (fuel : Nat) (initialState : WorldState) (goalItems : List String)
    (shelves : List Shelf) (collectionPoint : Point) (obstacles : List Point)
    (gridSize : Nat) : Option (Option PlannerResult) :=
  let startKey := stateToString initialState
  match heuristic fuel initialState goalItems collectionPoint obstacles gridSize with
  | none => none
  | some h0 =>
    plannerLoop fuel goalItems shelves collectionPoint obstacles gridSize fuel
      { openSet := [⟨⟨initialState, []⟩, h0⟩],
        gScore := [(startKey, 0)],
        fScore := [(startKey, h0)],
        iterations := 0 }

/-! ### Observers used to state the claims -/

/-- Applies one iteration of the planner loop when the loop continues, and
leaves the search state unchanged on any exit. -/
def stepNext (fuel : Nat) (goalItems : List String) (shelves : List Shelf)
    (collectionPoint : Point) (obstacles : List Point) (gridSize : Nat)
    (σ : PlanState) : PlanState :=
  match plannerStep fuel goalItems shelves collectionPoint obstacles gridSize σ with
  | .next σ2 => σ2
  | _ => σ

/-- The item-location entries currently tagged as carried by the robot. -/
def robotEntries (s : WorldState) : List (String × String) :=
  s.itemLocations.filter (fun e => e.2 == tagRobot)

/-- The item map has no duplicate item keys (a JS `Record` cannot have any;
an association list with duplicate keys corresponds to no JS state). -/
def keysNodup (s : WorldState) : Bool :=
  (s.itemLocations.map Prod.fst).Nodup

/-- The state invariant exactly as the claim words it: `holding` is non-null
iff exactly one item has location-tag `robot`, and it is the held item. -/
def claimedInv (s : WorldState) : Bool :=
  match s.holding with
  | some h => decide ((robotEntries s).map Prod.fst = [h])
  | none => decide (¬ (robotEntries s).length = 1)

/-- The state invariant the code actually preserves: the held item
identifier, when present, is additionally not the empty string (which the
code's truthiness tests would treat as an empty hand). -/
def stateInv (s : WorldState) : Bool :=
  match s.holding with
  | some h => decide (h ≠ "") && decide ((robotEntries s).map Prod.fst = [h])
  | none => decide (robotEntries s = [])

/-- Concrete planner input used to exercise the recorded-g-of-0 behavior:
the robot starts on shelf s2; both shelves stock the goal item. -/
def c4Init : WorldState := ⟨⟨1, 0⟩, none, [("a", "s1")]⟩

def c4Shelves : List Shelf := [⟨"s1", ["a"], ⟨0, 0⟩⟩, ⟨"s2", ["a"], ⟨1, 0⟩⟩]

def c4Step : PlanState → PlanState := stepNext 9 ["a"] c4Shelves ⟨0, 0⟩ [] 2

/-- The search state `aStarPlanner` seeds for `c4Init` (its heuristic value
is 20: one uncollected item, hand empty). -/
def c4Sigma0 : PlanState :=
  { openSet := [⟨⟨c4Init, []⟩, some 20⟩],
    gScore := [(stateToString c4Init, 0)],
    fScore := [(stateToString c4Init, some 20)],
    iterations := 0 }

/-- Invariant of `findPath`'s `cameFrom` map: every entry records a valid
(in-bounds, non-obstacle) cell reached from an adjacent predecessor that is
itself the start or a recorded cell. -/
def CFInv (startP : Point) (obstacles : List Point) (gridSize : Nat)
    (cf : List (Point × Point)) : Prop :=
  ∀ e ∈ cf, manhattanDistance e.2 e.1 = 1 ∧ validCell e.1 obstacles gridSize = true ∧
    (e.2 = startP ∨ e.2 ∈ cf.map Prod.fst)

/-- Invariant of `findPath`'s frontier: every queued cell is the start or
has a `cameFrom` entry. -/
def QInv (startP : Point) (cf : List (Point × Point)) (q : List (PQEntry Point)) : Prop :=
  ∀ e ∈ q, e.item = startP ∨ e.item ∈ cf.map Prod.fst

/-- Invariant of the planner frontier: every queued entry's state is the
result of applying its recorded action path to the initial state. -/
def PlanQueueSound (init : WorldState) (q : List (PQEntry PlanEntry)) : Prop :=
  ∀ e ∈ q, e.item.state = e.item.path.foldl applyAction init

/-- The `cameFrom` map `findPath` has built when it pops the goal of the run
from (0,0) to (2,0) on an open 3-grid.  It contains the cycle
(0,0) ↦ (1,0) ↦ (0,0): when (1,0) was expanded, the start's recorded
g-score 0 was falsy in `gScore.get(neighbor) || Infinity`, so the start was
"improved" to g = 2 and given a `cameFrom` entry. -/
def c1CF : List (Point × Point) :=
  [(⟨1, 0⟩, ⟨0, 0⟩), (⟨0, 1⟩, ⟨0, 0⟩), (⟨2, 0⟩, ⟨1, 0⟩), (⟨0, 0⟩, ⟨1, 0⟩), (⟨1, 1⟩, ⟨1, 0⟩)]

end RobotPicker

namespace RobotPicker

/-! ### Lemmas about the association-list and queue primitives -/

theorem alookup_aset_self {α β : Type} [DecidableEq α] (l : List (α × β)) (k : α) (v : β) :
    alookup (aset l k v) k = some v := by
  induction l with
  | nil => simp [aset, alookup]
  | cons p rest ih =>
    obtain ⟨k0, v0⟩ := p
    by_cases h : k0 = k
    · simp [aset, h, alookup]
    · simp [aset, h, alookup, ih]

theorem alookup_aset_ne {α β : Type} [DecidableEq α] (l : List (α × β)) (k k' : α) (v : β)
    (h : k ≠ k') : alookup (aset l k v) k' = alookup l k' := by
  induction l with
  | nil => simp [aset, alookup, h]
  | cons p rest ih =>
    obtain ⟨k0, v0⟩ := p
    by_cases h0 : k0 = k
    · subst h0
      simp [aset, alookup, h]
    · simp [aset, h0, alookup, ih]

theorem mem_aset {α β : Type} [DecidableEq α] {l : List (α × β)} {k : α} {v : β} {p : α × β}
    (hp : p ∈ aset l k v) : p = (k, v) ∨ p ∈ l := by
  induction l with
  | nil => simpa [aset] using hp
  | cons q rest ih =>
    obtain ⟨k0, v0⟩ := q
    by_cases h : k0 = k
    · subst h
      rw [show aset ((k0, v0) :: rest) k0 v = (k0, v) :: rest by simp [aset]] at hp
      rcases List.mem_cons.mp hp with h1 | h1
      · exact Or.inl h1
      · exact Or.inr (List.mem_cons_of_mem _ h1)
    · rw [show aset ((k0, v0) :: rest) k v = (k0, v0) :: aset rest k v by simp [aset, h]] at hp
      rcases List.mem_cons.mp hp with h1 | h1
      · exact Or.inr (h1 ▸ List.mem_cons_self _ _)
      · rcases ih h1 with h2 | h2
        · exact Or.inl h2
        · exact Or.inr (List.mem_cons_of_mem _ h2)

theorem map_fst_aset_subset {α β : Type} [DecidableEq α] (l : List (α × β)) (k k' : α) (v : β)
    (h : k' ∈ l.map Prod.fst) : k' ∈ (aset l k v).map Prod.fst := by
  induction l with
  | nil => simp at h
  | cons q rest ih =>
    obtain ⟨k0, v0⟩ := q
    by_cases h0 : k0 = k
    · subst h0
      simpa [aset] using h
    · simp only [List.map_cons, List.mem_cons] at h
      rcases h with h | h
      · simp [aset, h0, h]
      · simp [aset, h0, ih h]

theorem mem_map_fst_aset {α β : Type} [DecidableEq α] (l : List (α × β)) (k : α) (v : β) :
    k ∈ (aset l k v).map Prod.fst := by
  induction l with
  | nil => simp [aset]
  | cons q rest ih =>
    obtain ⟨k0, v0⟩ := q
    by_cases h0 : k0 = k
    · subst h0
      simp [aset]
    · simp [aset, h0, ih]

theorem alookup_eq_none_iff {α β : Type} [DecidableEq α] (l : List (α × β)) (k : α) :
    alookup l k = none ↔ k ∉ l.map Prod.fst := by
  induction l with
  | nil => simp [alookup]
  | cons q rest ih =>
    obtain ⟨k0, v0⟩ := q
    by_cases h0 : k0 = k
    · subst h0
      simp [alookup]
    · simp only [alookup, if_neg h0, List.map_cons, List.mem_cons, ih]
      constructor
      · intro h
        rintro (h1 | h1)
        · exact h0 h1.symm
        · exact h h1
      · intro h h1
        exact h (Or.inr h1)

theorem alookup_mem {α β : Type} [DecidableEq α] {l : List (α × β)} {k : α} {v : β}
    (h : alookup l k = some v) : (k, v) ∈ l := by
  induction l with
  | nil => simp [alookup] at h
  | cons q rest ih =>
    obtain ⟨k0, v0⟩ := q
    by_cases h0 : k0 = k
    · subst h0
      rw [show alookup ((k0, v0) :: rest) k0 = some v0 by simp [alookup]] at h
      injection h with h
      subst h
      exact List.mem_cons_self _ _
    · rw [show alookup ((k0, v0) :: rest) k = alookup rest k by simp [alookup, h0]] at h
      exact List.mem_cons_of_mem _ (ih h)

theorem mem_pqEnqueue {τ : Type} {q : List (PQEntry τ)} {e e' : PQEntry τ}
    (h : e' ∈ pqEnqueue q e) : e' = e ∨ e' ∈ q := by
  induction q with
  | nil => simpa [pqEnqueue] using h
  | cons x xs ih =>
    by_cases hc : costLe x.priority e.priority = true
    · simp only [pqEnqueue, if_pos hc, List.mem_cons] at h
      rcases h with h | h
      · exact Or.inr (h ▸ List.mem_cons_self _ _)
      · rcases ih h with h1 | h1
        · exact Or.inl h1
        · exact Or.inr (List.mem_cons_of_mem _ h1)
    · simp only [pqEnqueue, if_neg hc, List.mem_cons] at h
      rcases h with h | h | h
      · exact Or.inl h
      · exact Or.inr (h ▸ List.mem_cons_self _ _)
      · exact Or.inr (List.mem_cons_of_mem _ h)

theorem length_pqEnqueue {τ : Type} (q : List (PQEntry τ)) (e : PQEntry τ) :
    (pqEnqueue q e).length = q.length + 1 := by
  induction q with
  | nil => simp [pqEnqueue]
  | cons x xs ih =>
    by_cases hc : costLe x.priority e.priority = true
    · simp [pqEnqueue, hc, ih]
    · simp [pqEnqueue, hc]

/-! ### The string comparison used to canonicalize item maps -/

theorem charsLe_total : ∀ a b : List Char, charsLe a b = true ∨ charsLe b a = true
  | [], _ => Or.inl rfl
  | _ :: _, [] => Or.inr rfl
  | a :: as, b :: bs => by
    rcases Nat.lt_trichotomy a.toNat b.toNat with h | h | h
    · left
      simp [charsLe, h]
    · have h1 : ¬ a.toNat < b.toNat := by omega
      have h2 : ¬ b.toNat < a.toNat := by omega
      rcases charsLe_total as bs with hr | hr
      · left
        simp [charsLe, h1, h2, hr]
      · right
        simp [charsLe, h1, h2, hr]
    · right
      simp [charsLe, h]

theorem charsLe_trans : ∀ a b c : List Char,
    charsLe a b = true → charsLe b c = true → charsLe a c = true
  | [], _, _ => by intro _ _; rfl
  | _ :: _, [], _ => by intro h _; simp [charsLe] at h
  | _ :: _, _ :: _, [] => by intro _ h; simp [charsLe] at h
  | a :: as, b :: bs, c :: cs => by
    intro h1 h2
    simp only [charsLe] at h1 h2 ⊢
    rcases Nat.lt_trichotomy a.toNat c.toNat with h | h | h
    · simp [h]
    · have h1' : ¬ a.toNat < c.toNat := by omega
      have h2' : ¬ c.toNat < a.toNat := by omega
      simp only [if_neg h1', if_neg h2']
      by_cases hab : a.toNat < b.toNat
      · by_cases hbc : b.toNat < c.toNat
        · omega
        · by_cases hcb : c.toNat < b.toNat
          · simp [if_neg (by omega : ¬ b.toNat < c.toNat), if_pos hcb] at h2
          · omega
      · by_cases hba : b.toNat < a.toNat
        · simp [if_neg hab, if_pos hba] at h1
        · have hbc' : ¬ b.toNat < c.toNat := by omega
          have hcb' : ¬ c.toNat < b.toNat := by omega
          simp only [if_neg hab, if_neg hba] at h1
          simp only [if_neg hbc', if_neg hcb'] at h2
          exact charsLe_trans as bs cs h1 h2
    · exfalso
      by_cases hab : a.toNat < b.toNat
      · by_cases hbc : b.toNat < c.toNat
        · omega
        · by_cases hcb : c.toNat < b.toNat
          · simp [if_neg (by omega : ¬ b.toNat < c.toNat), if_pos hcb] at h2
          · omega
      · by_cases hba : b.toNat < a.toNat
        · simp [if_neg hab, if_pos hba] at h1
        · by_cases hbc : b.toNat < c.toNat
          · omega
          · by_cases hcb : c.toNat < b.toNat
            · simp [if_neg hbc, if_pos hcb] at h2
            · omega

theorem charsLe_antisymm : ∀ a b : List Char,
    charsLe a b = true → charsLe b a = true → a = b
  | [], [] => by intro _ _; rfl
  | [], _ :: _ => by intro _ h; simp [charsLe] at h
  | _ :: _, [] => by intro h _; simp [charsLe] at h
  | a :: as, b :: bs => by
    intro h1 h2
    simp only [charsLe] at h1 h2
    by_cases hab : a.toNat < b.toNat
    · simp [if_neg (by omega : ¬ b.toNat < a.toNat), if_pos hab] at h2
    · by_cases hba : b.toNat < a.toNat
      · simp [if_neg hab, if_pos hba] at h1
      · have h3 : a.toNat = b.toNat := by omega
        have hchar : a = b := Char.ext (UInt32.ext h3)
        simp only [if_neg hab, if_neg hba] at h1
        simp only [if_neg hba, if_neg hab] at h2
        rw [hchar, charsLe_antisymm as bs h1 h2]

theorem keyLe_antisymm_fst {a b : String × String} (h1 : keyLe a b) (h2 : keyLe b a) :
    a.1 = b.1 :=
  String.ext (charsLe_antisymm _ _ h1 h2)

instance : IsTotal (String × String) keyLe :=
  ⟨fun a b => charsLe_total a.1.data b.1.data⟩

instance : IsTrans (String × String) keyLe :=
  ⟨fun _ _ _ => charsLe_trans _ _ _⟩

/-- Two lists of item-location pairs that are permutations of each other, are
both sorted by item key, and have no duplicate keys, are equal. -/
theorem sorted_keyLe_nodup_eq : ∀ {l1 l2 : List (String × String)},
    l1.Perm l2 → l1.Sorted keyLe → l2.Sorted keyLe → (l1.map Prod.fst).Nodup → l1 = l2 := by
  intro l1
  induction l1 with
  | nil =>
    intro l2 hp _ _ _
    exact hp.nil_eq
  | cons a t ih =>
    intro l2 hp hs1 hs2 hnd
    cases l2 with
    | nil => exact absurd hp.symm.nil_eq (by simp)
    | cons b u =>
      have hab : a = b := by
        by_cases h : a = b
        · exact h
        · exfalso
          have hb : b ∈ a :: t := hp.mem_iff.mpr (List.mem_cons_self b u)
          have ha : a ∈ b :: u := hp.mem_iff.mp (List.mem_cons_self a t)
          have hbt : b ∈ t := by
            rcases List.mem_cons.mp hb with h1 | h1
            · exact absurd h1.symm h
            · exact h1
          have hau : a ∈ u := by
            rcases List.mem_cons.mp ha with h1 | h1
            · exact absurd h1 h
            · exact h1
          have hfst : a.1 = b.1 :=
            keyLe_antisymm_fst (List.rel_of_sorted_cons hs1 b hbt)
              (List.rel_of_sorted_cons hs2 a hau)
          have hnotin : a.1 ∉ t.map Prod.fst := (List.nodup_cons.mp hnd).1
          exact hnotin (hfst ▸ List.mem_map_of_mem Prod.fst hbt)
      subst hab
      have ht : t.Perm u := hp.cons_inv
      rw [ih ht hs1.of_cons hs2.of_cons (List.nodup_cons.mp hnd).2]

/-- C10: `stateToString` does not depend on the insertion order of the
item-locations mapping: states with the same robot position, the same
holding value, and the same item-to-location pairs (in any order, with no
duplicate item keys, as a JS `Record` guarantees) canonicalize to the same
string, because item locations are serialized sorted by item identifier. -/
theorem stateToString_order_independent (s1 s2 : WorldState)
    (hpos : s1.robotPos = s2.robotPos) (hhold : s1.holding = s2.holding)
    (hperm : s1.itemLocations.Perm s2.itemLocations)
    (hnd : (s1.itemLocations.map Prod.fst).Nodup) :
    stateToString s1 = stateToString s2 := by
  have hsorteq :
      List.insertionSort keyLe s1.itemLocations = List.insertionSort keyLe s2.itemLocations := by
    apply sorted_keyLe_nodup_eq
    · exact (List.perm_insertionSort keyLe s1.itemLocations).trans
        (hperm.trans (List.perm_insertionSort keyLe s2.itemLocations).symm)
    · exact List.sorted_insertionSort keyLe s1.itemLocations
    · exact List.sorted_insertionSort keyLe s2.itemLocations
    · exact (((List.perm_insertionSort keyLe s1.itemLocations).map Prod.fst).nodup_iff).mpr hnd
  unfold stateToString
  rw [hpos, hhold, hsorteq]

/-- Witness for C10 at a concrete pair of states whose item maps are stored
in opposite orders. -/
theorem stateToString_order_independent_witness :
    stateToString ⟨⟨1, 2⟩, none, [("a", "s1"), ("b", "s2")]⟩ =
      stateToString ⟨⟨1, 2⟩, none, [("b", "s2"), ("a", "s1")]⟩ :=
  stateToString_order_independent _ _ rfl rfl (by decide) (by decide)

/-- C9: when start = goal, `findPath` pops the start first, the goal test
fires immediately with an empty `cameFrom`, and the single-point path
`[start]` is returned, whatever the obstacles and grid size: obstacles are
only ever filtered during neighbor expansion, which is never reached. -/
theorem findPath_start_eq_goal (fuel : Nat) (hfuel : 1 ≤ fuel) (startP : Point)
    (obstacles : List Point) (gridSize : Nat) :
    findPath fuel startP startP obstacles gridSize = some (some [startP]) := by
  obtain ⟨n, rfl⟩ : ∃ n, fuel = n + 1 := ⟨fuel - 1, by omega⟩
  simp [findPath, fpLoop, reconstruct, alookup]

/-- Witness for C9 at a concrete input whose start is itself an obstacle. -/
theorem findPath_start_eq_goal_witness :
    1 ≤ 1 ∧ findPath 1 ⟨5, 7⟩ ⟨5, 7⟩ [⟨5, 7⟩] 9 = some (some [⟨5, 7⟩]) :=
  ⟨by decide, findPath_start_eq_goal 1 (by decide) ⟨5, 7⟩ [⟨5, 7⟩] 9⟩

/-- C3: both failure causes of `aStarPlanner` produce the very same return
value, the JS `null` (`some none` in this model): the first conjunct runs an
input whose frontier empties with no plan (planner.ts line 227), the second
evaluates the main-loop body at an iteration counter past the 5000 budget
(planner.ts line 200).  The two failure exits are indistinguishable to the
caller, although the claim (and spec section 6) require them to differ. -/
theorem aStarPlanner_failures_both_null :
    aStarPlanner 9 ⟨⟨0, 0⟩, none, [("a", "s1")]⟩ ["a"] [] ⟨0, 0⟩ [] 1 = some none ∧
    plannerStep 9 ["a"] [] ⟨0, 0⟩ [] 1
      { openSet := [⟨⟨⟨⟨0, 0⟩, none, [("a", "s1")]⟩, []⟩, some 20⟩],
        gScore := [], fScore := [], iterations := 5000 } = .done none :=
  ⟨rfl, rfl⟩

end RobotPicker

namespace RobotPicker

/-! ### C4: the planner's re-recording discipline -/

/-- Counterexample for C4.  Starting from the search state that
`aStarPlanner` seeds for `c4Init` (whose canonical key has recorded
g-score 0), the first loop iteration leaves that recording untouched and the
frontier holds no entry for that key; the second iteration reaches the
initial state again via a Move of tentative g = 2, which is not strictly
smaller than the recorded 0 — yet the code re-records the key at g = 2 and
pushes a fresh entry for it, because `gScore.get(key) || Infinity` treats
the recorded 0 as missing.  This contradicts the claim for a recorded
g-score of 0. -/
theorem planner_repushes_recorded_zero_g :
    heuristic 9 c4Init ["a"] ⟨0, 0⟩ [] 2 = some (some 20) ∧
    alookup c4Sigma0.gScore (stateToString c4Init) = some 0 ∧
    alookup (c4Step c4Sigma0).gScore (stateToString c4Init) = some 0 ∧
    ((c4Step c4Sigma0).openSet.filter
      (fun e => stateToString e.item.state == stateToString c4Init)).length = 0 ∧
    alookup (c4Step (c4Step c4Sigma0)).gScore (stateToString c4Init) = some 2 ∧
    ((c4Step (c4Step c4Sigma0)).openSet.filter
      (fun e => stateToString e.item.state == stateToString c4Init)).length = 1 :=
  ⟨rfl, rfl, rfl, rfl, rfl, rfl⟩

/-- C4 as amended: a successor is re-recorded and pushed iff its tentative g
beats the `gScore.get(key) || Infinity` guard.  For a previously recorded
positive g this is exactly the claimed strict improvement; but a missing
recording, or a recorded g of exactly 0 (the JS falsy-zero hole), always
admits the push, whatever the tentative g. -/
theorem relax_push_characterization
    (fuel : Nat) (goalItems : List String) (collectionPoint : Point) (obstacles : List Point)
    (gridSize : Nat) (currentState : WorldState) (currentKey : String)
    (currentPath : List Action) (gs : List (String × Nat)) (fs : List (String × Cost))
    (q : List (PQEntry PlanEntry)) (a : Action)
    (gs2 : List (String × Nat)) (fs2 : List (String × Cost)) (q2 : List (PQEntry PlanEntry))
    (hrun : relax fuel goalItems collectionPoint obstacles gridSize currentState currentKey
      currentPath (some (gs, fs, q)) a = some (gs2, fs2, q2)) :
    (∀ g0, alookup gs (stateToString (applyAction currentState a)) = some g0 → 0 < g0 →
      ((q2.length = q.length + 1 ∧
        alookup gs2 (stateToString (applyAction currentState a))
          = some (jsOrZero (alookup gs currentKey) + a.cost)) ↔
        jsOrZero (alookup gs currentKey) + a.cost < g0)) ∧
    (alookup gs (stateToString (applyAction currentState a)) = some 0 ∨
        alookup gs (stateToString (applyAction currentState a)) = none →
      q2.length = q.length + 1 ∧
        alookup gs2 (stateToString (applyAction currentState a))
          = some (jsOrZero (alookup gs currentKey) + a.cost)) := by
  simp only [relax] at hrun
  set nextKey := stateToString (applyAction currentState a) with hnk
  set tent := jsOrZero (alookup gs currentKey) + a.cost with htent
  by_cases hguard : natLtCost tent (jsOrInf (alookup gs nextKey)) = true
  · rw [if_pos hguard] at hrun
    rcases hh : heuristic fuel (applyAction currentState a) goalItems collectionPoint
        obstacles gridSize with _ | hval
    · rw [hh] at hrun
      exact absurd hrun (by simp)
    · rw [hh] at hrun
      simp only [Option.some.injEq, Prod.mk.injEq] at hrun
      obtain ⟨hgs, hfs, hq⟩ := hrun
      have hlen : q2.length = q.length + 1 := by
        rw [← hq, length_pqEnqueue]
      have hrec : alookup gs2 nextKey = some tent := by
        rw [← hgs, alookup_aset_self]
      constructor
      · intro g0 hg0 _
        constructor
        · intro _
          have := hguard
          rw [hg0] at this
          cases hg0pos : g0 with
          | zero =>
            subst hg0pos
            simp_all
          | succ m =>
            subst hg0pos
            simpa [natLtCost, jsOrInf] using this
        · intro _
          exact ⟨hlen, hrec⟩
      · intro _
        exact ⟨hlen, hrec⟩
  · rw [if_neg hguard] at hrun
    simp only [Option.some.injEq, Prod.mk.injEq] at hrun
    obtain ⟨hgs, _, hq⟩ := hrun
    constructor
    · intro g0 hg0 hg0pos
      constructor
      · intro ⟨hlen, _⟩
        rw [← hq] at hlen
        omega
      · intro hlt
        exfalso
        apply hguard
        rw [hg0]
        cases g0 with
        | zero => omega
        | succ m => simpa [natLtCost, jsOrInf] using hlt
    · rintro (h0 | h0) <;> rw [h0] at hguard <;>
        exact absurd (by simp [natLtCost, jsOrInf]) hguard

/-- Witness for the amended C4 at a concrete relax step whose successor key
has a recorded g-score of 0. -/
theorem relax_push_characterization_witness :
    ([(⟨⟨⟨⟨0, 0⟩, some "a", [("a", "robot")]⟩, [Action.pick "a" "s1" 1]⟩, some 21⟩ :
        PQEntry PlanEntry)]).length = ([] : List (PQEntry PlanEntry)).length + 1 ∧
    alookup [("0,0|a|a:robot", 1)] (stateToString
      (applyAction ⟨⟨0, 0⟩, none, []⟩ (Action.pick "a" "s1" 1))) = some 1 := by
  have := (relax_push_characterization 2 ["a"] ⟨0, 0⟩ [] 1 ⟨⟨0, 0⟩, none, []⟩ "x" []
    [("0,0|a|a:robot", 0)] [] [] (Action.pick "a" "s1" 1)
    [("0,0|a|a:robot", 1)] [("0,0|a|a:robot", some 21)]
    [⟨⟨⟨⟨0, 0⟩, some "a", [("a", "robot")]⟩, [Action.pick "a" "s1" 1]⟩, some 21⟩]
    rfl).2 (Or.inl (by decide))
  simpa using this

/-! ### C7: successor generation while holding an item -/

/-- Counterexample for C7: a state whose `holding` is non-null (it holds the
empty string, which JS truthiness treats as an empty hand) for which
`getSuccessors` emits two actions, not at most one. -/
theorem getSuccessors_empty_string_counterexample :
    (⟨⟨0, 0⟩, some "", [("a", "s1"), ("b", "s2")]⟩ : WorldState).holding ≠ none ∧
    getSuccessors 9 ⟨⟨0, 0⟩, some "", [("a", "s1"), ("b", "s2")]⟩ ["a", "b"]
      [⟨"s1", ["a"], ⟨0, 0⟩⟩, ⟨"s2", ["b"], ⟨0, 1⟩⟩] ⟨0, 0⟩ [] 2
      = some [.pick "a" "s1" 1, .move ⟨0, 0⟩ ⟨0, 1⟩ [⟨0, 0⟩, ⟨0, 1⟩] 1] ∧
    ¬ ([Action.pick "a" "s1" 1,
        Action.move ⟨0, 0⟩ ⟨0, 1⟩ [⟨0, 0⟩, ⟨0, 1⟩] 1] : List Action).length ≤ 1 := by
  refine ⟨by decide, rfl, by decide⟩

/-- C7 as amended: for a state holding a non-empty item identifier, the
successor set is decided entirely by `findPath(robotPos, collectionPoint)`:
one Move carrying the full path with cost = path length − 1 when the path
has more than one point, one Drop of the held item with cost 1 otherwise,
and nothing when no path exists. -/
theorem getSuccessors_holding_spec
    (fuel : Nat) (s : WorldState) (h : String) (goalItems : List String) (shelves : List Shelf)
    (collectionPoint : Point) (obstacles : List Point) (gridSize : Nat) (acts : List Action)
    (hhold : s.holding = some h) (hne : h ≠ "")
    (hrun : getSuccessors fuel s goalItems shelves collectionPoint obstacles gridSize
      = some acts) :
    acts.length ≤ 1 ∧
    (∀ p, findPath fuel s.robotPos collectionPoint obstacles gridSize = some (some p) →
      (1 < p.length → acts = [.move s.robotPos collectionPoint p (p.length - 1)]) ∧
      (¬ 1 < p.length → acts = [.drop h 1])) ∧
    (findPath fuel s.robotPos collectionPoint obstacles gridSize = some none → acts = []) := by
  rw [getSuccessors, hhold] at hrun
  simp only [if_neg hne] at hrun
  rw [successorsHolding] at hrun
  rcases hfp : findPath fuel s.robotPos collectionPoint obstacles gridSize with _ | _ | p
  · rw [hfp] at hrun
    exact absurd hrun (by simp)
  · rw [hfp] at hrun
    simp only [Option.some.injEq] at hrun
    subst hrun
    exact ⟨by simp, fun p hp => by simp at hp, fun _ => rfl⟩
  · have hrun2 : (if 1 < p.length then
        some [Action.move s.robotPos collectionPoint p (p.length - 1)]
      else some [Action.drop h 1]) = some acts := by
      rw [hfp] at hrun
      exact hrun
    by_cases hlen : 1 < p.length
    · rw [if_pos hlen] at hrun2
      injection hrun2 with hrun2
      subst hrun2
      refine ⟨by simp, ?_, fun hc => by simp at hc⟩
      intro p2 hp2
      have hp2e : p2 = p := by
        injection hp2 with hp2
        injection hp2 with hp2
        exact hp2.symm
      subst hp2e
      exact ⟨fun _ => rfl, fun hc => absurd hlen hc⟩
    · rw [if_neg hlen] at hrun2
      injection hrun2 with hrun2
      subst hrun2
      refine ⟨by simp, ?_, fun hc => by simp at hc⟩
      intro p2 hp2
      have hp2e : p2 = p := by
        injection hp2 with hp2
        injection hp2 with hp2
        exact hp2.symm
      subst hp2e
      exact ⟨fun hc => absurd hc hlen, fun _ => rfl⟩

/-- Witness for the amended C7 at a concrete holding state one step away
from the collection point. -/
theorem getSuccessors_holding_spec_witness :
    ([Action.move ⟨0, 0⟩ ⟨0, 1⟩ [⟨0, 0⟩, ⟨0, 1⟩] 1] : List Action).length ≤ 1 :=
  (getSuccessors_holding_spec 9 ⟨⟨0, 0⟩, some "a", [("a", "robot")]⟩ "a" ["a"] []
    ⟨0, 1⟩ [] 2 [Action.move ⟨0, 0⟩ ⟨0, 1⟩ [⟨0, 0⟩, ⟨0, 1⟩] 1] rfl (by decide) rfl).1

/-! ### C8: the heuristic -/

/-- Counterexample for C8: a state whose `holding` is non-null (the empty
string) for which the heuristic returns only the 20-per-item base, without
the real path distance the claim requires, although a path of one edge
exists. -/
theorem heuristic_empty_string_counterexample :
    (⟨⟨0, 0⟩, some "", []⟩ : WorldState).holding ≠ none ∧
    heuristic 9 ⟨⟨0, 0⟩, some "", []⟩ ["a"] ⟨0, 1⟩ [] 2 = some (some 20) ∧
    findPath 9 ⟨0, 0⟩ ⟨0, 1⟩ [] 2 = some (some [⟨0, 0⟩, ⟨0, 1⟩]) ∧
    some (some ((itemsToGet ⟨⟨0, 0⟩, some "", []⟩ ["a"]).length * 20 +
      (([⟨0, 0⟩, ⟨0, 1⟩] : List Point).length - 1))) ≠ (some (some 20) : Option Cost) := by
  refine ⟨by decide, rfl, rfl, by decide⟩

/-- C8 as amended: with a falsy `holding` (null or the empty string) the
heuristic is exactly 20 per uncollected item; with a truthy `holding` it
additionally mirrors `findPath` to the collection point: real edge count
added on a path, `Infinity` on no path, nontermination propagated. -/
theorem heuristic_spec
    (fuel : Nat) (s : WorldState) (goalItems : List String) (collectionPoint : Point)
    (obstacles : List Point) (gridSize : Nat) :
    (strTruthy s.holding = false →
      heuristic fuel s goalItems collectionPoint obstacles gridSize
        = some (some ((itemsToGet s goalItems).length * 20))) ∧
    (strTruthy s.holding = true →
      (∀ p, findPath fuel s.robotPos collectionPoint obstacles gridSize = some (some p) →
        heuristic fuel s goalItems collectionPoint obstacles gridSize
          = some (some ((itemsToGet s goalItems).length * 20 + (p.length - 1)))) ∧
      (findPath fuel s.robotPos collectionPoint obstacles gridSize = some none →
        heuristic fuel s goalItems collectionPoint obstacles gridSize = some none) ∧
      (findPath fuel s.robotPos collectionPoint obstacles gridSize = none →
        heuristic fuel s goalItems collectionPoint obstacles gridSize = none)) := by
  constructor
  · intro hf
    rw [heuristic, hf]
    simp
  · intro ht
    refine ⟨?_, ?_, ?_⟩
    · intro p hp
      rw [heuristic, ht, hp]
      simp
    · intro hp
      rw [heuristic, ht, hp]
      simp
    · intro hp
      rw [heuristic, ht, hp]
      simp

/-- Witness for the amended C8 at a concrete holding state with one
uncollected item and a one-edge path to the collection point. -/
theorem heuristic_spec_witness :
    heuristic 9 ⟨⟨0, 0⟩, some "b", [("b", "robot")]⟩ ["b"] ⟨0, 1⟩ [] 2
      = some (some ((itemsToGet ⟨⟨0, 0⟩, some "b", [("b", "robot")]⟩ ["b"]).length * 20 +
        (([⟨0, 0⟩, ⟨0, 1⟩] : List Point).length - 1))) :=
  ((heuristic_spec 9 ⟨⟨0, 0⟩, some "b", [("b", "robot")]⟩ ["b"] ⟨0, 1⟩ [] 2).2
    (by decide)).1 [⟨0, 0⟩, ⟨0, 1⟩] rfl

end RobotPicker

namespace RobotPicker

/-! ### C5: the world-state invariant under successor application -/

theorem map_fst_aset {α β : Type} [DecidableEq α] (l : List (α × β)) (k : α) (v : β) :
    (aset l k v).map Prod.fst =
      if k ∈ l.map Prod.fst then l.map Prod.fst else l.map Prod.fst ++ [k] := by
  induction l with
  | nil => simp [aset]
  | cons q rest ih =>
    obtain ⟨k0, v0⟩ := q
    by_cases hk : k0 = k
    · subst hk
      rw [show aset ((k0, v0) :: rest) k0 v = (k0, v) :: rest by simp [aset]]
      simp
    · rw [show aset ((k0, v0) :: rest) k v = (k0, v0) :: aset rest k v by simp [aset, hk]]
      by_cases hmem : k ∈ rest.map Prod.fst
      · simp [hmem, ih, Ne.symm hk]
      · simp [hmem, ih, Ne.symm hk]

theorem keysNodup_aset {α β : Type} [DecidableEq α] (l : List (α × β)) (k : α) (v : β)
    (hnd : (l.map Prod.fst).Nodup) : ((aset l k v).map Prod.fst).Nodup := by
  rw [map_fst_aset]
  by_cases hmem : k ∈ l.map Prod.fst
  · simpa [hmem] using hnd
  · simp [hmem, List.nodup_append, hnd]

/-- If no entry is tagged `robot`, setting one key to `robot` makes exactly
that key the unique robot-tagged entry. -/
theorem filter_robot_aset_of_empty (l : List (String × String)) (k : String)
    (hfil : l.filter (fun e => e.2 == tagRobot) = []) :
    ((aset l k tagRobot).filter (fun e => e.2 == tagRobot)).map Prod.fst = [k] := by
  induction l with
  | nil => simp [aset]
  | cons q rest ih =>
    obtain ⟨k0, v0⟩ := q
    have hv0 : (v0 == tagRobot) = false := by
      by_contra hc
      have : (v0 == tagRobot) = true := by
        cases hb : (v0 == tagRobot) with
        | false => exact absurd hb hc
        | true => rfl
      simp [List.filter_cons, this] at hfil
    have hrest : rest.filter (fun e => e.2 == tagRobot) = [] := by
      simpa [List.filter_cons, hv0] using hfil
    by_cases hk : k0 = k
    · subst hk
      rw [show aset ((k0, v0) :: rest) k0 tagRobot = (k0, tagRobot) :: rest by simp [aset]]
      simp [List.filter_cons, hrest]
    · rw [show aset ((k0, v0) :: rest) k tagRobot = (k0, v0) :: aset rest k tagRobot by
        simp [aset, hk]]
      simp only [List.filter_cons, hv0, if_neg]
      simpa [hv0] using ih hrest

/-- If the unique robot-tagged entry has key `h` and keys have no
duplicates, retagging key `h` to the collection point leaves no
robot-tagged entry. -/
theorem filter_robot_aset_drop (l : List (String × String)) (h : String)
    (hnd : (l.map Prod.fst).Nodup)
    (hfil : (l.filter (fun e => e.2 == tagRobot)).map Prod.fst = [h]) :
    (aset l h tagCollection).filter (fun e => e.2 == tagRobot) = [] := by
  induction l with
  | nil => simp at hfil
  | cons q rest ih =>
    obtain ⟨k0, v0⟩ := q
    by_cases hv0 : (v0 == tagRobot) = true
    · have hhead : k0 = h ∧ (rest.filter (fun e => e.2 == tagRobot)).map Prod.fst = [] := by
        rw [List.filter_cons, if_pos (by simpa using hv0)] at hfil
        simpa using hfil
      obtain ⟨hk0, hrest0⟩ := hhead
      subst hk0
      have hrest : rest.filter (fun e => e.2 == tagRobot) = [] :=
        List.map_eq_nil_iff.mp hrest0
      rw [show aset ((k0, v0) :: rest) k0 tagCollection = (k0, tagCollection) :: rest by
        simp [aset]]
      have : ((tagCollection : String) == tagRobot) = false := by decide
      simp [List.filter_cons, this, hrest]
    · have hv0f : (v0 == tagRobot) = false := by
        cases hb : (v0 == tagRobot) with
        | false => rfl
        | true => exact absurd hb hv0
      rw [List.filter_cons, if_neg (by simp [hv0f])] at hfil
      by_cases hk : k0 = h
      · exfalso
        subst hk
        have hmem : k0 ∈ (rest.filter (fun e => e.2 == tagRobot)).map Prod.fst := by
          rw [hfil]
          exact List.mem_cons_self _ _
        have hmem2 : k0 ∈ rest.map Prod.fst :=
          ((List.filter_sublist rest).map Prod.fst).subset hmem
        exact (List.nodup_cons.mp hnd).1 hmem2
      · rw [show aset ((k0, v0) :: rest) h tagCollection
            = (k0, v0) :: aset rest h tagCollection by simp [aset, hk]]
        rw [List.filter_cons, if_neg (by simp [hv0f])]
        exact ih (List.nodup_cons.mp hnd).2 hfil

/-- Every action produced by the hand-full branch is the single Move to the
collection point or the Drop of the held item. -/
theorem mem_successorsHolding {fuel : Nat} {s : WorldState} {h : String}
    {collectionPoint : Point} {obstacles : List Point} {gridSize : Nat}
    {acts : List Action} {a : Action}
    (hrun : successorsHolding fuel s h collectionPoint obstacles gridSize = some acts)
    (ha : a ∈ acts) :
    (∃ p, a = Action.move s.robotPos collectionPoint p (p.length - 1)) ∨
      a = Action.drop h 1 := by
  rw [successorsHolding] at hrun
  rcases hfp : findPath fuel s.robotPos collectionPoint obstacles gridSize with _ | _ | p
  · rw [hfp] at hrun
    exact absurd hrun (by simp)
  · rw [hfp] at hrun
    simp only [Option.some.injEq] at hrun
    subst hrun
    simp at ha
  · have hrun2 : (if 1 < p.length then
        some [Action.move s.robotPos collectionPoint p (p.length - 1)]
      else some [Action.drop h 1]) = some acts := by
      rw [hfp] at hrun
      exact hrun
    by_cases hlen : 1 < p.length
    · rw [if_pos hlen] at hrun2
      injection hrun2 with hrun2
      subst hrun2
      rcases List.mem_singleton.mp ha with rfl
      exact Or.inl ⟨p, rfl⟩
    · rw [if_neg hlen] at hrun2
      injection hrun2 with hrun2
      subst hrun2
      rcases List.mem_singleton.mp ha with rfl
      exact Or.inr rfl

theorem foldl_shelfMoveStep_mem {fuel : Nat} {s : WorldState} {obstacles : List Point}
    {gridSize : Nat} :
    ∀ (shs : List Shelf) (acc : Option (List Action)) (res : List Action) (a : Action),
      shs.foldl (shelfMoveStep fuel s obstacles gridSize) acc = some res → a ∈ res →
      (∃ acts0, acc = some acts0 ∧ a ∈ acts0) ∨
        ∃ toP p, a = Action.move s.robotPos toP p (p.length - 1) := by
  intro shs
  induction shs with
  | nil =>
    intro acc res a hf ha
    exact Or.inl ⟨res, hf, ha⟩
  | cons sh rest ih =>
    intro acc res a hf ha
    rcases ih (shelfMoveStep fuel s obstacles gridSize acc sh) res a hf ha with h1 | h1
    · obtain ⟨acts0, hacc, hmem⟩ := h1
      cases acc with
      | none => exact absurd hacc (by simp [shelfMoveStep])
      | some acts1 =>
        rw [shelfMoveStep] at hacc
        rcases hfp : findPath fuel s.robotPos sh.pos obstacles gridSize with _ | _ | p
        · rw [hfp] at hacc
          exact absurd hacc (by simp)
        · rw [hfp] at hacc
          simp only [Option.some.injEq] at hacc
          subst hacc
          exact Or.inl ⟨acts1, rfl, hmem⟩
        · have hacc2 : (if 1 < p.length then
              some (acts1 ++ [Action.move s.robotPos sh.pos p (p.length - 1)])
            else some acts1) = some acts0 := by
            rw [hfp] at hacc
            exact hacc
          by_cases hlen : 1 < p.length
          · rw [if_pos hlen] at hacc2
            injection hacc2 with hacc2
            subst hacc2
            rcases List.mem_append.mp hmem with h2 | h2
            · exact Or.inl ⟨acts1, rfl, h2⟩
            · rcases List.mem_singleton.mp h2 with rfl
              exact Or.inr ⟨sh.pos, p, rfl⟩
          · rw [if_neg hlen] at hacc2
            injection hacc2 with hacc2
            subst hacc2
            exact Or.inl ⟨acts1, rfl, hmem⟩
    · exact Or.inr h1

/-- Every action produced by the hand-empty branch is a Pick of a needed,
non-empty item identifier at cost 1, or a Move. -/
theorem mem_successorsEmpty {fuel : Nat} {s : WorldState} {goalItems : List String}
    {shelves : List Shelf} {obstacles : List Point} {gridSize : Nat}
    {acts : List Action} {a : Action}
    (hrun : successorsEmpty fuel s goalItems shelves obstacles gridSize = some acts)
    (ha : a ∈ acts) :
    (∃ it shId, a = Action.pick it shId 1 ∧ it ≠ "" ∧ it ∈ neededItems s goalItems) ∨
      ∃ toP p, a = Action.move s.robotPos toP p (p.length - 1) := by
  rw [successorsEmpty] at hrun
  rcases foldl_shelfMoveStep_mem _ _ _ _ hrun ha with ⟨acts0, hacc, hmem⟩ | h1
  · left
    injection hacc with hacc
    subst hacc
    rcases hfind : shelves.find? (fun sh => decide (sh.pos = s.robotPos)) with _ | sh
    · rw [hfind] at hmem
      simp at hmem
    · rw [hfind] at hmem
      have hmem2 : a ∈ (match sh.items.find?
            (fun it => decide (it ∈ neededItems s goalItems)) with
        | some it => if it = "" then [] else [Action.pick it sh.id 1]
        | none => ([] : List Action)) := hmem
      rcases hit : sh.items.find? (fun it => decide (it ∈ neededItems s goalItems)) with _ | it
      · rw [hit] at hmem2
        simp at hmem2
      · rw [hit] at hmem2
        have hmem3 : a ∈ (if it = "" then [] else [Action.pick it sh.id 1]) := hmem2
        by_cases hne : it = ""
        · rw [if_pos hne] at hmem3
          simp at hmem3
        · rw [if_neg hne] at hmem3
          rcases List.mem_singleton.mp hmem3 with rfl
          have hp := List.find?_some hit
          exact ⟨it, sh.id, rfl, hne, by simpa using hp⟩
  · exact Or.inr h1

/-- Counterexample for C5.  The state holds the empty string (non-null) and
that very item is the unique robot-tagged one, so it satisfies the claimed
invariant; but JS truthiness routes `getSuccessors` through the hand-empty
branch, a Pick is emitted, and applying it yields a state with two items
tagged `robot` at once. -/
theorem applyAction_empty_string_counterexample :
    claimedInv ⟨⟨0, 0⟩, some "", [("", "robot"), ("x", "s1")]⟩ = true ∧
    keysNodup ⟨⟨0, 0⟩, some "", [("", "robot"), ("x", "s1")]⟩ = true ∧
    getSuccessors 9 ⟨⟨0, 0⟩, some "", [("", "robot"), ("x", "s1")]⟩ ["x"]
      [⟨"s1", ["x"], ⟨0, 0⟩⟩] ⟨0, 1⟩ [] 2 = some [.pick "x" "s1" 1] ∧
    (robotEntries (applyAction ⟨⟨0, 0⟩, some "", [("", "robot"), ("x", "s1")]⟩
      (.pick "x" "s1" 1))).length = 2 := by
  refine ⟨by decide, by decide, rfl, by decide⟩

/-- C5 as amended: restricted to states whose held item identifier (when
present) is non-empty — the code's truthiness tests make a held empty
string behave as an empty hand, and the claimed invariant is not preserved
there — and to duplicate-free item keys (a JS `Record` cannot have
duplicates), every successor action preserves the invariant: the new state
never has two robot-tagged items, and its `holding` is non-null iff exactly
one item is robot-tagged, namely the held one. -/
theorem applyAction_preserves_invariant
    (fuel : Nat) (s : WorldState) (goalItems : List String) (shelves : List Shelf)
    (collectionPoint : Point) (obstacles : List Point) (gridSize : Nat)
    (acts : List Action) (a : Action)
    (hnd : keysNodup s = true) (hinv : stateInv s = true)
    (hrun : getSuccessors fuel s goalItems shelves collectionPoint obstacles gridSize
      = some acts)
    (ha : a ∈ acts) :
    stateInv (applyAction s a) = true ∧ keysNodup (applyAction s a) = true := by
  rcases hh : s.holding with _ | h
  · have hrun2 : successorsEmpty fuel s goalItems shelves obstacles gridSize = some acts := by
      rw [getSuccessors, hh] at hrun
      exact hrun
    have hrob : s.itemLocations.filter (fun e => e.2 == tagRobot) = [] := by
      rw [stateInv, hh] at hinv
      simpa [robotEntries] using hinv
    rcases mem_successorsEmpty hrun2 ha with ⟨it, shId, haeq, hne, _⟩ | ⟨toP, p, haeq⟩
    · subst haeq
      constructor
      · show (decide (it ≠ "") && decide (((aset s.itemLocations it tagRobot).filter
          (fun e => e.2 == tagRobot)).map Prod.fst = [it])) = true
        rw [filter_robot_aset_of_empty _ _ hrob]
        simp [hne]
      · show decide (((aset s.itemLocations it tagRobot).map Prod.fst).Nodup) = true
        exact decide_eq_true (keysNodup_aset _ _ _ (of_decide_eq_true hnd))
    · subst haeq
      exact ⟨hinv, hnd⟩
  · have hne : h ≠ "" := by
      rw [stateInv, hh] at hinv
      intro hc
      subst hc
      simp at hinv
    have hrun2 : successorsHolding fuel s h collectionPoint obstacles gridSize = some acts := by
      rw [getSuccessors, hh] at hrun
      have hrun3 : (if h = "" then successorsEmpty fuel s goalItems shelves obstacles gridSize
        else successorsHolding fuel s h collectionPoint obstacles gridSize) = some acts := hrun
      rwa [if_neg hne] at hrun3
    have hfil : (s.itemLocations.filter (fun e => e.2 == tagRobot)).map Prod.fst = [h] := by
      rw [stateInv, hh] at hinv
      simpa [robotEntries, hne] using hinv
    rcases mem_successorsHolding hrun2 ha with ⟨p, haeq⟩ | haeq
    · subst haeq
      exact ⟨hinv, hnd⟩
    · subst haeq
      constructor
      · show decide ((aset s.itemLocations h tagCollection).filter
          (fun e => e.2 == tagRobot) = []) = true
        exact decide_eq_true (filter_robot_aset_drop _ _ (of_decide_eq_true hnd) hfil)
      · show decide (((aset s.itemLocations h tagCollection).map Prod.fst).Nodup) = true
        exact decide_eq_true (keysNodup_aset _ _ _ (of_decide_eq_true hnd))

/-- Witness for the amended C5 at a concrete hand-empty state picking a
needed item at its shelf. -/
theorem applyAction_preserves_invariant_witness :
    stateInv (applyAction ⟨⟨0, 0⟩, none, [("x", "s1")]⟩ (.pick "x" "s1" 1)) = true ∧
    keysNodup (applyAction ⟨⟨0, 0⟩, none, [("x", "s1")]⟩ (.pick "x" "s1" 1)) = true :=
  applyAction_preserves_invariant 9 ⟨⟨0, 0⟩, none, [("x", "s1")]⟩ ["x"]
    [⟨"s1", ["x"], ⟨0, 0⟩⟩] ⟨0, 1⟩ [] 2 [.pick "x" "s1" 1] (.pick "x" "s1" 1)
    (by decide) (by decide) rfl (by decide)

end RobotPicker

namespace RobotPicker

/-! ### C6: validity of returned grid paths -/

theorem manhattan_neighborsOf (cur : Point) :
    ∀ nbr ∈ neighborsOf cur, manhattanDistance cur nbr = 1 := by
  intro nbr h
  simp only [neighborsOf, List.mem_cons, List.mem_singleton] at h
  rcases h with rfl | rfl | rfl | rfl | h
  · simp [manhattanDistance]
  · simp [manhattanDistance]
  · simp [manhattanDistance]
  · simp [manhattanDistance]
  · simp at h

/-- Walking the `cameFrom` chains of a well-formed map produces a contiguous
path of valid cells that starts, after the prepended start cell, adjacent to
it. -/
theorem reconstruct_valid (startP : Point) (obstacles : List Point) (gridSize : Nat)
    (cf : List (Point × Point)) (hcf : CFInv startP obstacles gridSize cf) :
    ∀ (n : Nat) (cur : Point) (acc out : List Point),
      (cur = startP ∨ cur ∈ cf.map Prod.fst) →
      (∀ q ∈ acc, validCell q obstacles gridSize = true) →
      List.Chain' (fun a b => manhattanDistance a b = 1) (cur :: acc) →
      reconstruct n cf cur acc = some out →
      List.Chain' (fun a b => manhattanDistance a b = 1) (startP :: out) ∧
      ∀ q ∈ out, validCell q obstacles gridSize = true := by
  intro n
  induction n with
  | zero =>
    intro cur acc out _ _ _ hrec
    exact absurd hrec (by simp [reconstruct])
  | succ m ih =>
    intro cur acc out hcur hacc hchain hrec
    rw [reconstruct] at hrec
    rcases hlk : alookup cf cur with _ | prev
    · rw [hlk] at hrec
      injection hrec with hrec
      subst hrec
      have hcurs : cur = startP := by
        rcases hcur with h | h
        · exact h
        · exact absurd h ((alookup_eq_none_iff cf cur).mp hlk)
      subst hcurs
      exact ⟨hchain, hacc⟩
    · rw [hlk] at hrec
      obtain ⟨hadj, hvalid, hclosed⟩ := hcf (cur, prev) (alookup_mem hlk)
      refine ih prev (cur :: acc) out hclosed ?_ ?_ hrec
      · intro q hq
        rcases List.mem_cons.mp hq with rfl | hq
        · exact hvalid
        · exact hacc q hq
      · exact List.chain'_cons.mpr ⟨hadj, hchain⟩

/-- Folding the neighbor relaxation over any list of valid cells adjacent to
the dequeued node preserves both `findPath` invariants. -/
theorem foldl_fpRelaxNeighbor_inv (startP endP : Point) (obstacles : List Point)
    (gridSize : Nat) (cur : Point) :
    ∀ (ns : List Point),
      (∀ nbr ∈ ns, manhattanDistance cur nbr = 1 ∧ validCell nbr obstacles gridSize = true) →
      ∀ (σ : FPState),
        (cur = startP ∨ cur ∈ σ.cameFrom.map Prod.fst) →
        CFInv startP obstacles gridSize σ.cameFrom →
        QInv startP σ.cameFrom σ.openSet →
        CFInv startP obstacles gridSize (ns.foldl (fpRelaxNeighbor endP cur) σ).cameFrom ∧
        QInv startP (ns.foldl (fpRelaxNeighbor endP cur) σ).cameFrom
          (ns.foldl (fpRelaxNeighbor endP cur) σ).openSet := by
  intro ns
  induction ns with
  | nil =>
    intro _ σ _ hcf hq
    exact ⟨hcf, hq⟩
  | cons nbr ns ih =>
    intro hns σ hcur hcf hq
    have hnbr := hns nbr (List.mem_cons_self _ _)
    have hns2 : ∀ x ∈ ns, manhattanDistance cur x = 1 ∧ validCell x obstacles gridSize = true :=
      fun x hx => hns x (List.mem_cons_of_mem _ hx)
    rw [List.foldl_cons]
    by_cases hguard : natLtCost (jsOrZero (alookup σ.gScore cur) + 1)
        (jsOrInf (alookup σ.gScore nbr)) = true
    · rw [show fpRelaxNeighbor endP cur σ nbr
          = { openSet := pqEnqueue σ.openSet
                ⟨nbr, some (jsOrZero (alookup σ.gScore cur) + 1 + manhattanDistance nbr endP)⟩,
              cameFrom := aset σ.cameFrom nbr cur,
              gScore := aset σ.gScore nbr (jsOrZero (alookup σ.gScore cur) + 1) } by
        rw [fpRelaxNeighbor]
        exact if_pos hguard]
      apply ih hns2
      · rcases hcur with h | h
        · exact Or.inl h
        · exact Or.inr (map_fst_aset_subset _ _ _ _ h)
      · intro e he
        rcases mem_aset he with rfl | he2
        · refine ⟨hnbr.1, hnbr.2, ?_⟩
          rcases hcur with h | h
          · exact Or.inl h
          · exact Or.inr (map_fst_aset_subset _ _ _ _ h)
        · obtain ⟨h1, h2, h3⟩ := hcf e he2
          refine ⟨h1, h2, ?_⟩
          rcases h3 with h3 | h3
          · exact Or.inl h3
          · exact Or.inr (map_fst_aset_subset _ _ _ _ h3)
      · intro e he
        rcases mem_pqEnqueue he with rfl | he2
        · exact Or.inr (mem_map_fst_aset _ _ _)
        · rcases hq e he2 with h | h
          · exact Or.inl h
          · exact Or.inr (map_fst_aset_subset _ _ _ _ h)
    · rw [show fpRelaxNeighbor endP cur σ nbr = σ by
        rw [fpRelaxNeighbor]
        exact if_neg hguard]
      exact ih hns2 σ hcur hcf hq

/-- One neighbor expansion preserves both `findPath` invariants. -/
theorem fpExpand_inv (startP endP : Point) (obstacles : List Point) (gridSize : Nat)
    (cur : Point) (σ : FPState)
    (hcur : cur = startP ∨ cur ∈ σ.cameFrom.map Prod.fst)
    (hcf : CFInv startP obstacles gridSize σ.cameFrom)
    (hq : QInv startP σ.cameFrom σ.openSet) :
    CFInv startP obstacles gridSize (fpExpand endP obstacles gridSize cur σ).cameFrom ∧
    QInv startP (fpExpand endP obstacles gridSize cur σ).cameFrom
      (fpExpand endP obstacles gridSize cur σ).openSet := by
  rw [fpExpand]
  apply foldl_fpRelaxNeighbor_inv startP endP obstacles gridSize cur _ ?_ σ hcur hcf hq
  intro nbr h
  obtain ⟨h1, h2⟩ := List.mem_filter.mp h
  exact ⟨manhattan_neighborsOf cur nbr h1, h2⟩

/-- Any path that the inner A* loop returns from an invariant-respecting
search state is contiguous, starts at the start cell, and consists of valid
cells after the start. -/
theorem fpLoop_valid (startP endP : Point) (obstacles : List Point) (gridSize : Nat) :
    ∀ (fuel : Nat) (σ : FPState) (p : List Point),
      CFInv startP obstacles gridSize σ.cameFrom →
      QInv startP σ.cameFrom σ.openSet →
      fpLoop startP endP obstacles gridSize fuel σ = some (some p) →
      p.head? = some startP ∧
      List.Chain' (fun a b => manhattanDistance a b = 1) p ∧
      ∀ q ∈ p.tail, validCell q obstacles gridSize = true := by
  intro fuel
  induction fuel with
  | zero =>
    intro σ p _ _ h
    exact absurd h (by simp [fpLoop])
  | succ n ih =>
    intro σ p hcf hq hrun
    rw [fpLoop] at hrun
    rcases hqs : σ.openSet with _ | ⟨e, rest⟩
    · rw [hqs] at hrun
      exact absurd hrun (by simp)
    · rw [hqs] at hrun
      have hrun2 : (if e.item = endP then
          match reconstruct (n + 1) σ.cameFrom e.item [] with
          | none => none
          | some tailPath => some (some (startP :: tailPath))
        else
          fpLoop startP endP obstacles gridSize n
            (fpExpand endP obstacles gridSize e.item { σ with openSet := rest }))
          = some (some p) := hrun
      by_cases hend : e.item = endP
      · rw [if_pos hend] at hrun2
        rcases hrec : reconstruct (n + 1) σ.cameFrom e.item [] with _ | out
        · rw [hrec] at hrun2
          exact absurd hrun2 (by simp)
        · rw [hrec] at hrun2
          simp only [Option.some.injEq] at hrun2
          subst hrun2
          have hcur : e.item = startP ∨ e.item ∈ σ.cameFrom.map Prod.fst :=
            hq e (by rw [hqs]; exact List.mem_cons_self _ _)
          obtain ⟨hchain, hvalid⟩ := reconstruct_valid startP obstacles gridSize σ.cameFrom
            hcf (n + 1) e.item [] out hcur (by simp) (by simp) hrec
          exact ⟨rfl, hchain, by simpa using hvalid⟩
      · rw [if_neg hend] at hrun2
        have hcur : e.item = startP ∨ e.item ∈ σ.cameFrom.map Prod.fst :=
          hq e (by rw [hqs]; exact List.mem_cons_self _ _)
        have hqrest : QInv startP σ.cameFrom rest :=
          fun e2 he2 => hq e2 (by rw [hqs]; exact List.mem_cons_of_mem _ he2)
        obtain ⟨hcf2, hq2⟩ := fpExpand_inv startP endP obstacles gridSize e.item
          { σ with openSet := rest } hcur hcf hqrest
        exact ih _ p hcf2 hq2 hrun2

/-- C6 as amended: every path returned by `findPath` starts at the start
cell and is contiguous (consecutive points differ by one unit in exactly
one coordinate), and every point after the start is inside the grid and not
an obstacle.  The start cell is exempt from BOTH checks: `findPath` never
filters the obstacle set — nor the grid bounds — against the start, only
against neighbors during expansion. -/
theorem findPath_path_valid (fuel : Nat) (startP endP : Point) (obstacles : List Point)
    (gridSize : Nat) (p : List Point)
    (hrun : findPath fuel startP endP obstacles gridSize = some (some p)) :
    p.head? = some startP ∧
    List.Chain' (fun a b => manhattanDistance a b = 1) p ∧
    ∀ q ∈ p.tail, validCell q obstacles gridSize = true := by
  apply fpLoop_valid startP endP obstacles gridSize fuel _ p ?_ ?_ hrun
  · intro e he
    simp at he
  · intro e he
    rcases List.mem_singleton.mp he with rfl
    exact Or.inl rfl

/-- Witness for the amended C6 on a concrete one-step path. -/
theorem findPath_path_valid_witness :
    ([⟨0, 0⟩, ⟨0, 1⟩] : List Point).head? = some ⟨0, 0⟩ ∧
    List.Chain' (fun a b => manhattanDistance a b = 1) ([⟨0, 0⟩, ⟨0, 1⟩] : List Point) ∧
    ∀ q ∈ ([⟨0, 0⟩, ⟨0, 1⟩] : List Point).tail, validCell q [] 2 = true :=
  findPath_path_valid 9 ⟨0, 0⟩ ⟨0, 1⟩ [] 2 [⟨0, 0⟩, ⟨0, 1⟩] rfl

/-- Counterexample for C6 as claimed: an out-of-bounds start cell (3,0) on a
3×3 grid is never checked against the grid bounds (only neighbors are
filtered), so `findPath` happily returns a path containing it; the claim
says every point of a returned path lies within the gridSize × gridSize
bounds. -/
theorem findPath_out_of_bounds_start_counterexample :
    findPath 9 ⟨3, 0⟩ ⟨2, 0⟩ [] 3 = some (some [⟨3, 0⟩, ⟨2, 0⟩]) ∧
    (⟨3, 0⟩ : Point) ∈ ([⟨3, 0⟩, ⟨2, 0⟩] : List Point) ∧
    validCell ⟨3, 0⟩ [] 3 = false := by
  refine ⟨rfl, by decide, by decide⟩

end RobotPicker

namespace RobotPicker

/-! ### C2: soundness of returned plans -/

/-- One successor relaxation preserves the frontier-soundness invariant: the
pushed entry pairs the applied state with the extended action path. -/
theorem relax_sound (fuel : Nat) (goalItems : List String) (collectionPoint : Point)
    (obstacles : List Point) (gridSize : Nat) (init : WorldState)
    (currentState : WorldState) (currentKey : String) (currentPath : List Action)
    (hcur : currentState = currentPath.foldl applyAction init)
    (gs : List (String × Nat)) (fs : List (String × Cost)) (q : List (PQEntry PlanEntry))
    (a : Action) (gs2 : List (String × Nat)) (fs2 : List (String × Cost))
    (q2 : List (PQEntry PlanEntry))
    (hq : PlanQueueSound init q)
    (hrel : relax fuel goalItems collectionPoint obstacles gridSize currentState currentKey
      currentPath (some (gs, fs, q)) a = some (gs2, fs2, q2)) :
    PlanQueueSound init q2 := by
  simp only [relax] at hrel
  by_cases hguard : natLtCost (jsOrZero (alookup gs currentKey) + a.cost)
      (jsOrInf (alookup gs (stateToString (applyAction currentState a)))) = true
  · rw [if_pos hguard] at hrel
    rcases hh : heuristic fuel (applyAction currentState a) goalItems collectionPoint
        obstacles gridSize with _ | hval
    · rw [hh] at hrel
      exact absurd hrel (by simp)
    · rw [hh] at hrel
      simp only [Option.some.injEq, Prod.mk.injEq] at hrel
      obtain ⟨_, _, hq2⟩ := hrel
      subst hq2
      intro e he
      rcases mem_pqEnqueue he with rfl | he2
      · show applyAction currentState a = (currentPath ++ [a]).foldl applyAction init
        rw [List.foldl_append, ← hcur]
        rfl
      · exact hq e he2
  · rw [if_neg hguard] at hrel
    simp only [Option.some.injEq, Prod.mk.injEq] at hrel
    obtain ⟨_, _, hq2⟩ := hrel
    subst hq2
    exact hq

/-- Folding the relaxation over a successor list preserves the
frontier-soundness invariant. -/
theorem foldl_relax_sound (fuel : Nat) (goalItems : List String) (collectionPoint : Point)
    (obstacles : List Point) (gridSize : Nat) (init : WorldState)
    (currentState : WorldState) (currentKey : String) (currentPath : List Action)
    (hcur : currentState = currentPath.foldl applyAction init) :
    ∀ (actions : List Action)
      (acc : Option (List (String × Nat) × List (String × Cost) × List (PQEntry PlanEntry)))
      (gs2 : List (String × Nat)) (fs2 : List (String × Cost)) (q2 : List (PQEntry PlanEntry)),
      (∀ gs fs q, acc = some (gs, fs, q) → PlanQueueSound init q) →
      actions.foldl (relax fuel goalItems collectionPoint obstacles gridSize currentState
        currentKey currentPath) acc = some (gs2, fs2, q2) →
      PlanQueueSound init q2 := by
  intro actions
  induction actions with
  | nil =>
    intro acc gs2 fs2 q2 hacc hf
    exact hacc _ _ _ hf
  | cons a rest ih =>
    intro acc gs2 fs2 q2 hacc hf
    rw [List.foldl_cons] at hf
    apply ih _ _ _ _ ?_ hf
    intro gs fs q hacc2
    cases acc with
    | none =>
      rw [relax] at hacc2
      exact absurd hacc2 (by simp)
    | some t =>
      obtain ⟨gs0, fs0, q0⟩ := t
      exact relax_sound fuel goalItems collectionPoint obstacles gridSize init currentState
        currentKey currentPath hcur gs0 fs0 q0 a gs fs q (hacc gs0 fs0 q0 rfl) hacc2

/-- A successful exit of the planner loop body returns the popped entry's
path, whose application to the initial state satisfies the goal. -/
theorem plannerStep_done_sound (fuel : Nat) (goalItems : List String) (shelves : List Shelf)
    (collectionPoint : Point) (obstacles : List Point) (gridSize : Nat) (init : WorldState)
    (σ : PlanState) (res : PlannerResult)
    (hq : PlanQueueSound init σ.openSet)
    (hstep : plannerStep fuel goalItems shelves collectionPoint obstacles gridSize σ
      = .done (some res)) :
    isGoal (res.path.foldl applyAction init) goalItems = true := by
  rw [plannerStep] at hstep
  rcases hqs : σ.openSet with _ | ⟨e, rest⟩
  · rw [hqs] at hstep
    exact absurd hstep (by simp)
  · rw [hqs] at hstep
    have hstep2 : (if 5000 < σ.iterations + 1 then PlanStep.done none
      else if isGoal e.item.state goalItems then
        PlanStep.done (some ⟨e.item.path, σ.iterations + 1⟩)
      else match getSuccessors fuel e.item.state goalItems shelves collectionPoint obstacles
          gridSize with
        | none => PlanStep.stuck
        | some actions =>
          match actions.foldl (relax fuel goalItems collectionPoint obstacles gridSize
              e.item.state (stateToString e.item.state) e.item.path)
              (some (σ.gScore, σ.fScore, rest)) with
          | none => PlanStep.stuck
          | some (gs, fs, q) => PlanStep.next ⟨q, gs, fs, σ.iterations + 1⟩)
        = PlanStep.done (some res) := hstep
    by_cases htime : 5000 < σ.iterations + 1
    · rw [if_pos htime] at hstep2
      injection hstep2 with hstep2
      exact absurd hstep2 (by simp)
    · rw [if_neg htime] at hstep2
      by_cases hgoal : isGoal e.item.state goalItems = true
      · rw [if_pos hgoal] at hstep2
        injection hstep2 with hstep2
        injection hstep2 with hstep2
        subst hstep2
        have hsound : e.item.state = e.item.path.foldl applyAction init :=
          hq e (by rw [hqs]; exact List.mem_cons_self _ _)
        rw [show (PlannerResult.mk e.item.path (σ.iterations + 1)).path = e.item.path from rfl,
          ← hsound]
        exact hgoal
      · rw [if_neg hgoal] at hstep2
        rcases hsucc : getSuccessors fuel e.item.state goalItems shelves collectionPoint
            obstacles gridSize with _ | actions
        · rw [hsucc] at hstep2
          exact absurd hstep2 (by simp)
        · rw [hsucc] at hstep2
          have hstep3 : (match actions.foldl (relax fuel goalItems collectionPoint obstacles
              gridSize e.item.state (stateToString e.item.state) e.item.path)
              (some (σ.gScore, σ.fScore, rest)) with
            | none => PlanStep.stuck
            | some (gs, fs, q) => PlanStep.next ⟨q, gs, fs, σ.iterations + 1⟩)
              = PlanStep.done (some res) := hstep2
          rcases hfold : actions.foldl (relax fuel goalItems collectionPoint obstacles gridSize
              e.item.state (stateToString e.item.state) e.item.path)
              (some (σ.gScore, σ.fScore, rest)) with _ | t
          · rw [hfold] at hstep3
            exact absurd hstep3 (by simp)
          · obtain ⟨gs, fs, q⟩ := t
            rw [hfold] at hstep3
            exact absurd hstep3 (by simp)

/-- A continuing planner loop iteration preserves the frontier-soundness
invariant. -/
theorem plannerStep_next_sound (fuel : Nat) (goalItems : List String) (shelves : List Shelf)
    (collectionPoint : Point) (obstacles : List Point) (gridSize : Nat) (init : WorldState)
    (σ σ2 : PlanState)
    (hq : PlanQueueSound init σ.openSet)
    (hstep : plannerStep fuel goalItems shelves collectionPoint obstacles gridSize σ
      = .next σ2) :
    PlanQueueSound init σ2.openSet := by
  rw [plannerStep] at hstep
  rcases hqs : σ.openSet with _ | ⟨e, rest⟩
  · rw [hqs] at hstep
    exact absurd hstep (by simp)
  · rw [hqs] at hstep
    have hstep2 : (if 5000 < σ.iterations + 1 then PlanStep.done none
      else if isGoal e.item.state goalItems then
        PlanStep.done (some ⟨e.item.path, σ.iterations + 1⟩)
      else match getSuccessors fuel e.item.state goalItems shelves collectionPoint obstacles
          gridSize with
        | none => PlanStep.stuck
        | some actions =>
          match actions.foldl (relax fuel goalItems collectionPoint obstacles gridSize
              e.item.state (stateToString e.item.state) e.item.path)
              (some (σ.gScore, σ.fScore, rest)) with
          | none => PlanStep.stuck
          | some (gs, fs, q) => PlanStep.next ⟨q, gs, fs, σ.iterations + 1⟩)
        = PlanStep.next σ2 := hstep
    by_cases htime : 5000 < σ.iterations + 1
    · rw [if_pos htime] at hstep2
      exact absurd hstep2 (by simp)
    · rw [if_neg htime] at hstep2
      by_cases hgoal : isGoal e.item.state goalItems = true
      · rw [if_pos hgoal] at hstep2
        exact absurd hstep2 (by simp)
      · rw [if_neg hgoal] at hstep2
        rcases hsucc : getSuccessors fuel e.item.state goalItems shelves collectionPoint
            obstacles gridSize with _ | actions
        · rw [hsucc] at hstep2
          exact absurd hstep2 (by simp)
        · rw [hsucc] at hstep2
          have hstep3 : (match actions.foldl (relax fuel goalItems collectionPoint obstacles
              gridSize e.item.state (stateToString e.item.state) e.item.path)
              (some (σ.gScore, σ.fScore, rest)) with
            | none => PlanStep.stuck
            | some (gs, fs, q) => PlanStep.next ⟨q, gs, fs, σ.iterations + 1⟩)
              = PlanStep.next σ2 := hstep2
          rcases hfold : actions.foldl (relax fuel goalItems collectionPoint obstacles gridSize
              e.item.state (stateToString e.item.state) e.item.path)
              (some (σ.gScore, σ.fScore, rest)) with _ | t
          · rw [hfold] at hstep3
            exact absurd hstep3 (by simp)
          · obtain ⟨gs, fs, q⟩ := t
            rw [hfold] at hstep3
            have hstep4 : PlanStep.next (⟨q, gs, fs, σ.iterations + 1⟩ : PlanState)
                = PlanStep.next σ2 := hstep3
            injection hstep4 with hstep2
            have hsound : e.item.state = e.item.path.foldl applyAction init :=
              hq e (by rw [hqs]; exact List.mem_cons_self _ _)
            have hrest : PlanQueueSound init rest :=
              fun e2 he2 => hq e2 (by rw [hqs]; exact List.mem_cons_of_mem _ he2)
            have hq2 : PlanQueueSound init q :=
              foldl_relax_sound fuel goalItems collectionPoint obstacles gridSize init
                e.item.state (stateToString e.item.state) e.item.path hsound actions
                (some (σ.gScore, σ.fScore, rest)) gs fs q
                (by
                  intro gs0 fs0 q0 hacc
                  injection hacc with hacc
                  rw [show q0 = rest by
                    have := congrArg (fun t => t.2.2) hacc
                    exact this.symm]
                  exact hrest)
                hfold
            rw [← hstep2]
            exact hq2

/-- The planner loop, run on any sound frontier, only succeeds with a plan
whose replay from the initial state satisfies the goal. -/
theorem plannerLoop_sound (fuelI : Nat) (goalItems : List String) (shelves : List Shelf)
    (collectionPoint : Point) (obstacles : List Point) (gridSize : Nat) (init : WorldState) :
    ∀ (n : Nat) (σ : PlanState) (res : PlannerResult),
      PlanQueueSound init σ.openSet →
      plannerLoop fuelI goalItems shelves collectionPoint obstacles gridSize n σ
        = some (some res) →
      isGoal (res.path.foldl applyAction init) goalItems = true := by
  intro n
  induction n with
  | zero =>
    intro σ res _ h
    exact absurd h (by simp [plannerLoop])
  | succ m ih =>
    intro σ res hq hrun
    rw [plannerLoop] at hrun
    rcases hstep : plannerStep fuelI goalItems shelves collectionPoint obstacles gridSize σ
        with r | σ2 | _
    · rw [hstep] at hrun
      injection hrun with hrun
      subst hrun
      exact plannerStep_done_sound fuelI goalItems shelves collectionPoint obstacles gridSize
        init σ res hq hstep
    · rw [hstep] at hrun
      exact ih σ2 res (plannerStep_next_sound fuelI goalItems shelves collectionPoint obstacles
        gridSize init σ σ2 hq hstep) hrun
    · rw [hstep] at hrun
      exact absurd hrun (by simp)

/-- C2: whenever `aStarPlanner` returns a plan, replaying that plan's action
list from the initial state with `applyAction` produces a state in which
every goal item has location-tag `collectionPoint` (the goal test holds):
the frontier always pairs each state with the exact action path that
produced it, and the success exit returns the popped pair's path. -/
theorem aStarPlanner_sound (fuel : Nat) (initialState : WorldState) (goalItems : List String)
    (shelves : List Shelf) (collectionPoint : Point) (obstacles : List Point) (gridSize : Nat)
    (res : PlannerResult)
    (hrun : aStarPlanner fuel initialState goalItems shelves collectionPoint obstacles gridSize
      = some (some res)) :
    isGoal (res.path.foldl applyAction initialState) goalItems = true := by
  rw [aStarPlanner] at hrun
  rcases hh : heuristic fuel initialState goalItems collectionPoint obstacles gridSize
      with _ | h0
  · rw [hh] at hrun
    exact absurd hrun (by simp)
  · rw [hh] at hrun
    have hrun2 : plannerLoop fuel goalItems shelves collectionPoint obstacles gridSize fuel
        (⟨[⟨⟨initialState, []⟩, h0⟩], [(stateToString initialState, 0)],
          [(stateToString initialState, h0)], 0⟩ : PlanState) = some (some res) := hrun
    apply plannerLoop_sound fuel goalItems shelves collectionPoint obstacles gridSize
      initialState fuel _ res ?_ hrun2
    intro e he
    rcases List.mem_singleton.mp he with rfl
    rfl

end RobotPicker

namespace RobotPicker

/-- Witness for C2 at a concrete one-item scenario whose plan is
pick-then-drop. -/
theorem aStarPlanner_sound_witness :
    isGoal (([Action.pick "a" "s1" 1, Action.drop "a" 1] : List Action).foldl applyAction
      ⟨⟨0, 0⟩, none, [("a", "s1")]⟩) ["a"] = true :=
  aStarPlanner_sound 9 ⟨⟨0, 0⟩, none, [("a", "s1")]⟩ ["a"] [⟨"s1", ["a"], ⟨0, 0⟩⟩] ⟨0, 0⟩ [] 1
    ⟨[Action.pick "a" "s1" 1, Action.drop "a" 1], 3⟩ rfl

/-! ### C1: nontermination of `findPath` on open grids -/

/-- Walking the cyclic `cameFrom` map of the (0,0) → (2,0) run never
terminates: from (1,0) or (0,0) the chain alternates between the two
forever, whatever the fuel. -/
theorem reconstruct_c1CF_cycle :
    ∀ (n : Nat) (acc : List Point),
      reconstruct n c1CF ⟨1, 0⟩ acc = none ∧ reconstruct n c1CF ⟨0, 0⟩ acc = none := by
  intro n
  induction n with
  | zero => exact fun acc => ⟨rfl, rfl⟩
  | succ m ih =>
    intro acc
    constructor
    · rw [reconstruct]
      rw [show alookup c1CF (⟨1, 0⟩ : Point) = some ⟨0, 0⟩ from rfl]
      exact (ih _).2
    · rw [reconstruct]
      rw [show alookup c1CF (⟨0, 0⟩ : Point) = some ⟨1, 0⟩ from rfl]
      exact (ih _).1

/-- C1 fails as a code bug: on the open 3×3 grid, `findPath` from (0,0) to
(2,0) — a reachable goal at Manhattan distance 2 — never returns, at any
fuel.  After two pops the goal is dequeued, but the expansion of (1,0) gave
the start a `cameFrom` entry (its recorded g-score 0 is falsy in
`gScore.get(neighbor) || Infinity`), so path reconstruction chases the
(0,0) ↦ (1,0) ↦ (0,0) cycle forever instead of returning the optimal
3-point path the claim and the spec describe. -/
theorem findPath_nonterminating_on_open_grid :
    ∀ fuel : Nat, findPath fuel ⟨0, 0⟩ ⟨2, 0⟩ [] 3 = none := by
  intro fuel
  match fuel with
  | 0 => rfl
  | 1 => rfl
  | 2 => rfl
  | (k + 3) =>
    have hred : findPath (k + 3) ⟨0, 0⟩ ⟨2, 0⟩ [] 3
        = (match reconstruct (k + 1) c1CF ⟨2, 0⟩ [] with
           | none => none
           | some tailPath => some (some (⟨0, 0⟩ :: tailPath))) := rfl
    rw [hred]
    have hnone : reconstruct (k + 1) c1CF ⟨2, 0⟩ [] = none := by
      rw [reconstruct]
      rw [show alookup c1CF (⟨2, 0⟩ : Point) = some ⟨1, 0⟩ from rfl]
      exact (reconstruct_c1CF_cycle k _).1
    rw [hnone]

end RobotPicker
